import Mathlib

/-!
Verification development for the constexpr raycaster.

The C++ sources are shallowly embedded over exact rationals: every `float`
value of the program is modelled as a `ℚ`, `MAXFLOAT` is the exact rational
value of IEEE-754 single precision `FLT_MAX`, and each C++ function is
translated into a computable Lean definition with the same structure.
Conversions from `float` to integer bytes are modelled by truncation toward
zero, matching the C++ conversion rule on in-range values.
-/

namespace Raycaster

/-- Exact rational value of `FLT_MAX` (the `MAXFLOAT` sentinel of the code):
`(2 - 2⁻²³) · 2¹²⁷ = (2²⁴ - 1) · 2¹⁰⁴`. -/
def MAXFLOAT : ℚ := (2 ^ 24 - 1) * 2 ^ 104

/-- Embedding of `struct float3` from `main.cpp`: a cartesian 3-vector. -/
structure float3 where
  x : ℚ
  y : ℚ
  z : ℚ
deriving DecidableEq

/-- Embedding of the broadcasting constructor `float3(float same)`. -/
def float3.same (s : ℚ) : float3 := ⟨s, s, s⟩

instance : Neg float3 := ⟨fun v => ⟨-v.x, -v.y, -v.z⟩⟩

instance : Add float3 := ⟨fun a b => ⟨a.x + b.x, a.y + b.y, a.z + b.z⟩⟩

instance : Sub float3 := ⟨fun a b => a + -b⟩

instance : Mul float3 := ⟨fun a b => ⟨a.x * b.x, a.y * b.y, a.z * b.z⟩⟩

/-- Embedding of `float3::rcp`: component-wise reciprocal with the
divide-by-zero policy of the code (`x != 0 ? 1.f / x : MAXFLOAT`). -/
def float3.rcp (v : float3) : float3 :=
  ⟨if v.x ≠ 0 then 1 / v.x else MAXFLOAT,
   if v.y ≠ 0 then 1 / v.y else MAXFLOAT,
   if v.z ≠ 0 then 1 / v.z else MAXFLOAT⟩

instance : Div float3 := ⟨fun a b => a * b.rcp⟩

/-- Embedding of the free function `fmin` on `float3` (component-wise). -/
def fmin (a b : float3) : float3 := ⟨min a.x b.x, min a.y b.y, min a.z b.z⟩

/-- Embedding of the free function `fmax` on `float3` (component-wise). -/
def fmax (a b : float3) : float3 := ⟨max a.x b.x, max a.y b.y, max a.z b.z⟩

/-- Embedding of `clamp(x, min, max) = fmax(fmin(x, max), min)`. -/
def clamp (v lo hi : float3) : float3 := fmax (fmin v hi) lo

/-- Embedding of `matx4` restricted to what the verified claims consume:
a row-major 4x4 rational matrix accessed as `m[row][column]`. -/
def matx4 : Type := Fin 4 → Fin 4 → ℚ

/-- Embedding of `struct BBox` (also used as `Voxel`). -/
structure BBox where
  min : float3
  max : float3
deriving DecidableEq

/-- Embedding of `struct Ray`: an origin and a precomputed reciprocal
direction. -/
structure Ray where
  origin : float3
  rcpdir : float3
deriving DecidableEq

/-- Embedding of `struct Hit`.  The C++ masks are `int` values that are only
ever `0` or `1` and are only ever tested against zero, so they are modelled
as `Bool`. -/
structure Hit where
  dist : ℚ
  a_mask : Bool
  b_mask : Bool
deriving DecidableEq

/-- Embedding of the default constructor `Hit()`. -/
def Hit.init : Hit := ⟨MAXFLOAT, false, false⟩

/-- Embedding of `intersect(bbox, ray)`: the slab test of `main.cpp`
lines 310-327, including the two axis-mask flags. -/
def intersect (bbox : BBox) (ray : Ray) : Hit :=
  let t0 := (bbox.min - ray.origin) * ray.rcpdir
  let t1 := (bbox.max - ray.origin) * ray.rcpdir
  let axial_min := fmin t0 t1
  let axial_max := fmax t0 t1
  let a_mask := decide (axial_min.x ≥ axial_min.y)
  let b_mask := decide (max axial_min.x axial_min.y ≥ axial_min.z)
  let tmin := max (max axial_min.x axial_min.y) axial_min.z
  let tmax := min (min axial_max.x axial_max.y) axial_max.z
  ⟨if 0 < tmin ∧ tmin < tmax then tmin else MAXFLOAT, a_mask, b_mask⟩

/-- Truncation toward zero of a rational, the C++ `float`-to-integer
conversion rule. -/
def ratTrunc (q : ℚ) : ℤ :=
  if 0 ≤ q then ⌊q⌋ else -⌊-q⌋

/-- Embedding of `struct Pixel`: three byte channels. -/
structure Pixel where
  r : ℕ
  g : ℕ
  b : ℕ
deriving DecidableEq

/-- Embedding of the broadcasting constructor `Pixel(uint8_t same)`. -/
def Pixel.ofSame (s : ℕ) : Pixel := ⟨s, s, s⟩

/-- Embedding of the converting constructor `Pixel(const float3&)`:
each channel is `a.c * 255.f` converted to `uint8_t` (truncation). -/
def Pixel.ofFloat3 (a : float3) : Pixel :=
  ⟨(ratTrunc (a.x * 255)).toNat, (ratTrunc (a.y * 255)).toNat,
   (ratTrunc (a.z * 255)).toNat⟩

/-- Loop body of the closest-hit scan in `shootRay`: the candidate replaces
the accumulator exactly when its distance is strictly smaller. -/
def stepHit (c h : Hit) : Hit := if h.dist < c.dist then h else c

/-- The closest-hit scan of `shootRay` (`main.cpp` lines 365-372): a fold of
`stepHit` over the scene starting from the default `Hit`. -/
def scanClosest (scene : List BBox) (ray : Ray) : Hit :=
  scene.foldl (fun c b => stepHit c (intersect b ray)) Hit.init

/-- The same scan expressed on a list of precomputed hits. -/
def scanHits (hits : List Hit) : Hit := hits.foldl stepHit Hit.init

/-- Ray direction computed by `shootRay` (`main.cpp` lines 356-362):
`idy = global_idx / image_w`, `idx = global_idx % image_w`, then
`cam[0]*((idx*2 - w)*(1/w)) + cam[1]*((idy*2 - h)*(1/h)) + cam[2]`. -/
def mkRayDir (global_idx image_w image_h : ℕ) (cam : Fin 4 → float3) : float3 :=
  let idy : ℕ := global_idx / image_w
  let idx : ℕ := global_idx % image_w
  cam 0 * float3.same (((idx : ℚ) * 2 - (image_w : ℚ)) * (1 / (image_w : ℚ))) +
  cam 1 * float3.same (((idy : ℚ) * 2 - (image_h : ℚ)) * (1 / (image_h : ℚ))) +
  cam 2

/-- Ray built by `shootRay` (`main.cpp` line 364):
origin `cam[3]`, reciprocal direction clamped to
`[-MAXFLOAT/2, MAXFLOAT/2]`. -/
def mkRay (global_idx image_w image_h : ℕ) (cam : Fin 4 → float3) : Ray :=
  ⟨cam 3,
   clamp (mkRayDir global_idx image_w image_h cam).rcp
     (float3.same (-MAXFLOAT / 2)) (float3.same (MAXFLOAT / 2))⟩

/-- Embedding of `shootRay` (`main.cpp` lines 348-378). -/
def shootRay (global_idx image_w image_h : ℕ) (cam : Fin 4 → float3)
    (scene : List BBox) : Pixel :=
  let ray := mkRay global_idx image_w image_h cam
  let closest := scanClosest scene ray
  let normal : float3 :=
    if closest.b_mask then
      (if closest.a_mask then ⟨1, 0, 0⟩ else ⟨0, 1, 0⟩)
    else ⟨0, 0, 1⟩
  if MAXFLOAT ≠ closest.dist then
    Pixel.ofFloat3 (normal * float3.same (1 / 2) + float3.same (1 / 2))
  else Pixel.ofSame 0

/-- Accumulating fold of `computeSceneBBox` (`main.cpp` lines 380-391). -/
def sceneFold (scene : List BBox) (acc : float3 × float3) : float3 × float3 :=
  scene.foldl (fun p b => (fmin p.1 b.min, fmax p.2 b.max)) acc

/-- Embedding of `computeSceneBBox`: fold from the
`(+MAXFLOAT, -MAXFLOAT)` accumulator. -/
def computeSceneBBox (scene : List BBox) : BBox :=
  let r := sceneFold scene
    (⟨MAXFLOAT, MAXFLOAT, MAXFLOAT⟩, ⟨-MAXFLOAT, -MAXFLOAT, -MAXFLOAT⟩)
  ⟨r.1, r.2⟩

/-- Embedding of the camera-basis assembly of `main` (`main.cpp`
lines 452-457), parameterized by the composed inverse view matrix and the
image dimensions that appear symbolically in the source expression:
row 0 unscaled, row 1 scaled by `image_h/image_w`, row 2 negated,
row 3 unscaled. -/
def mkCam (mv : matx4) (image_w image_h : ℕ) : Fin 4 → float3 :=
  ![⟨mv 0 0, mv 0 1, mv 0 2⟩,
    float3.mk (mv 1 0) (mv 1 1) (mv 1 2) * float3.same ((image_h : ℚ) / (image_w : ℚ)),
    float3.mk (mv 2 0) (mv 2 1) (mv 2 2) * float3.same (-1),
    ⟨mv 3 0, mv 3 1, mv 3 2⟩]

/-- Spec-side per-axis slab entry on the x axis:
`min(t0, t1)` with `t0 = (min.x - origin.x) * rcpdir.x` and
`t1 = (max.x - origin.x) * rcpdir.x`. -/
def entryX (bbox : BBox) (ray : Ray) : ℚ :=
  min ((bbox.min.x - ray.origin.x) * ray.rcpdir.x)
      ((bbox.max.x - ray.origin.x) * ray.rcpdir.x)

/-- Spec-side per-axis slab entry on the y axis. -/
def entryY (bbox : BBox) (ray : Ray) : ℚ :=
  min ((bbox.min.y - ray.origin.y) * ray.rcpdir.y)
      ((bbox.max.y - ray.origin.y) * ray.rcpdir.y)

/-- Spec-side per-axis slab entry on the z axis. -/
def entryZ (bbox : BBox) (ray : Ray) : ℚ :=
  min ((bbox.min.z - ray.origin.z) * ray.rcpdir.z)
      ((bbox.max.z - ray.origin.z) * ray.rcpdir.z)

/-- Spec-side per-axis slab exit on the x axis: `max(t0, t1)`. -/
def exitX (bbox : BBox) (ray : Ray) : ℚ :=
  max ((bbox.min.x - ray.origin.x) * ray.rcpdir.x)
      ((bbox.max.x - ray.origin.x) * ray.rcpdir.x)

/-- Spec-side per-axis slab exit on the y axis. -/
def exitY (bbox : BBox) (ray : Ray) : ℚ :=
  max ((bbox.min.y - ray.origin.y) * ray.rcpdir.y)
      ((bbox.max.y - ray.origin.y) * ray.rcpdir.y)

/-- Spec-side per-axis slab exit on the z axis. -/
def exitZ (bbox : BBox) (ray : Ray) : ℚ :=
  max ((bbox.min.z - ray.origin.z) * ray.rcpdir.z)
      ((bbox.max.z - ray.origin.z) * ray.rcpdir.z)

/-- Spec-side overall slab entry: maximum over the three per-axis entries. -/
def slabEntry (bbox : BBox) (ray : Ray) : ℚ :=
  max (max (entryX bbox ray) (entryY bbox ray)) (entryZ bbox ray)

/-- Spec-side overall slab exit: minimum over the three per-axis exits. -/
def slabExit (bbox : BBox) (ray : Ray) : ℚ :=
  min (min (exitX bbox ray) (exitY bbox ray)) (exitZ bbox ray)

/-- Spec-side minimum hit distance of a scene along a ray, capped by the
`MAXFLOAT` no-hit sentinel. -/
def minHitDist (scene : List BBox) (ray : Ray) : ℚ :=
  scene.foldr (fun b m => min (intersect b ray).dist m) MAXFLOAT

/-- Spec-side closest-hit selection, written from the spec's words: the
geometrically nearest hit wins, a tie in distance keeps the earlier box, and
a box whose distance is the `MAXFLOAT` sentinel (or beyond) is no hit. -/
def specClosestHit (scene : List BBox) (ray : Ray) : Hit :=
  match scene with
  | [] => Hit.init
  | b :: rest =>
    let h := intersect b ray
    let r := specClosestHit rest ray
    if h.dist < MAXFLOAT ∧ h.dist ≤ r.dist then h else r

/-- Spec-side pixel ray, written from the spec's words:
`(row, col) = (index / width, index % width)`, direction
`right*((2*col - width)/width) + up*((2*row - height)/height) + forward`,
ray `(eye, clamp(reciprocal(d), -LARGE/2, +LARGE/2))`. -/
def specPixelRay (index width height : ℕ) (cam : Fin 4 → float3) : Ray :=
  let row : ℕ := index / width
  let col : ℕ := index % width
  let d : float3 :=
    cam 0 * float3.same ((2 * (col : ℚ) - (width : ℚ)) / (width : ℚ)) +
    cam 1 * float3.same ((2 * (row : ℚ) - (height : ℚ)) / (height : ℚ)) +
    cam 2
  ⟨cam 3, clamp d.rcp (float3.same (-MAXFLOAT / 2)) (float3.same (MAXFLOAT / 2))⟩

/-- Spec-side camera basis written from the amended spec words: the four
basis vectors are the rows of the composed inverse view matrix, with the up
vector (row 1, the Y row) scaled by `image_h/image_w`, the forward vector
(row 2) negated, and the right and eye rows passed unscaled. -/
def specCameraBasis (mv : matx4) (image_w image_h : ℕ) : Fin 4 → float3 :=
  let rightRow : float3 := ⟨mv 0 0, mv 0 1, mv 0 2⟩
  let upRow : float3 := ⟨mv 1 0, mv 1 1, mv 1 2⟩
  let forwardRow : float3 := ⟨mv 2 0, mv 2 1, mv 2 2⟩
  let eyeRow : float3 := ⟨mv 3 0, mv 3 1, mv 3 2⟩
  ![rightRow,
    upRow * float3.same ((image_h : ℚ) / (image_w : ℚ)),
    forwardRow * float3.same (-1),
    eyeRow]

/-- Loop body of the closest-hit scan instrumented to also record the index
of the hit last kept, mirroring the loop counter `i` of `shootRay`. -/
def stepIdx (acc : Hit × Option ℕ) (p : ℕ × Hit) : Hit × Option ℕ :=
  if p.2.dist < acc.1.dist then (p.2, some p.1) else acc

/-- Closest-hit scan over a list of hits that also reports which loop index
supplied the chosen hit (`none` when every candidate was rejected). -/
def scanRecord (hits : List Hit) : Hit × Option ℕ :=
  (List.enumFrom 0 hits).foldl stepIdx (Hit.init, none)

/-- Little-endian byte pair of an unsigned 16-bit value, the layout
`fwrite` produces for one `uint16_t` on the reference target. -/
def encodeU16 (n : ℕ) : List ℕ := [n % 256, n / 256 % 256]

/-- Decoding of an unsigned 16-bit value from its two bytes. -/
def decodeU16 (b0 b1 : ℕ) : ℕ := b0 + 256 * b1

/-- Byte layout of one `Pixel` (three `uint8_t` fields, `sizeof == 3`). -/
def pixelBytes (p : Pixel) : List ℕ := [p.r, p.g, p.b]

/-- Embedding of the image serialization of `main` (`main.cpp`
lines 493-501): the `uint16_t dim[] = {w, h}` header followed by the raw
`Pixel` samples. -/
def serializeImage (image_w image_h : ℕ) (samples : List Pixel) : List ℕ :=
  encodeU16 image_w ++ encodeU16 image_h ++ (samples.map pixelBytes).flatten

/-- Header reader of `bin2png.cpp` (lines 187-188): the first two
`uint16_t` fields of the input buffer. -/
def headerDims (input : List ℕ) : Option (ℕ × ℕ) :=
  match input with
  | b0 :: b1 :: b2 :: b3 :: _ => some (decodeU16 b0 b1, decodeU16 b2 b3)
  | _ => none

/-- Embedding of the input validation of `bin2png.cpp` (lines 187-193):
decode the header dimensions and accept only when
`image_w * image_h + sizeof(uint16_t[2]) == inputLength`; `none` models the
fatal non-zero-exit rejection path. -/
def bin2pngCheck (input : List ℕ) : Option (ℕ × ℕ) :=
  match headerDims input with
  | some (w, h) => if w * h + 4 = input.length then some (w, h) else none
  | none => none

/-- Concrete camera basis used by witnesses: identity orientation with the
eye at the origin. -/
def camW : Fin 4 → float3 :=
  ![⟨1, 0, 0⟩, ⟨0, 1, 0⟩, ⟨0, 0, 1⟩, ⟨0, 0, 0⟩]

/-- Concrete box missed by every ray of `camW` at a 2x2 resolution. -/
def bbMissW : BBox := ⟨⟨5, 5, 5⟩, ⟨6, 6, 6⟩⟩

/-- Concrete ray used by witnesses: origin `(0,0,3)` looking down `-z` with
a slight diagonal tilt, given directly by its reciprocal direction. -/
def rayW : Ray := ⟨⟨0, 0, 3⟩, ⟨10, 10, -1⟩⟩

/-- Concrete unit-ish box around the origin used by witnesses. -/
def boxAW : BBox := ⟨⟨-1, -1, -1⟩, ⟨1, 1, 1⟩⟩

/-- Concrete second box used by witnesses, overlapping `boxAW`. -/
def boxBW : BBox := ⟨⟨-1, -1, -3⟩, ⟨1, 1, 0⟩⟩

/-- Concrete ray used by the axis-mask witness: its reciprocal direction
makes the z axis supply the binding entry. -/
def rayZW : Ray := ⟨⟨0, 0, 3⟩, ⟨1, 1, -1⟩⟩

/-- Concrete hit pair with equal distances but different masks, used to
witness that the scan's choice ignores the masks. -/
def hitPairW : List Hit × List Hit :=
  ([⟨5, true, false⟩, ⟨7, false, false⟩], [⟨5, false, true⟩, ⟨7, true, true⟩])

/-- Concrete 2x2 all-background sample list used by the serializer
witnesses. -/
def samplesW : List Pixel := List.replicate 4 (Pixel.ofSame 0)

/-- Concrete matrix with pairwise distinct rows used by the camera-basis
counterexample. -/
def camMatC : matx4 := fun i j => ((i.val * 4 + j.val : ℕ) : ℚ)

/-- Float-range side condition for the bounding-box reduction: every box
coordinate that feeds a fold is inside the representable float range, as it
always is for actual `float` data. -/
abbrev sceneBounded (scene : List BBox) : Prop :=
  ∀ b ∈ scene,
    b.min.x ≤ MAXFLOAT ∧ b.min.y ≤ MAXFLOAT ∧ b.min.z ≤ MAXFLOAT ∧
    -MAXFLOAT ≤ b.max.x ∧ -MAXFLOAT ≤ b.max.y ∧ -MAXFLOAT ≤ b.max.z

theorem float3_add_x (a b : float3) : (a + b).x = a.x + b.x := rfl

theorem float3_add_y (a b : float3) : (a + b).y = a.y + b.y := rfl

theorem float3_add_z (a b : float3) : (a + b).z = a.z + b.z := rfl

theorem float3_mul_x (a b : float3) : (a * b).x = a.x * b.x := rfl

theorem float3_mul_y (a b : float3) : (a * b).y = a.y * b.y := rfl

theorem float3_mul_z (a b : float3) : (a * b).z = a.z * b.z := rfl

theorem float3_sub_x (a b : float3) : (a - b).x = a.x - b.x := sub_eq_add_neg a.x b.x ▸ rfl

theorem float3_sub_y (a b : float3) : (a - b).y = a.y - b.y := sub_eq_add_neg a.y b.y ▸ rfl

theorem float3_sub_z (a b : float3) : (a - b).z = a.z - b.z := sub_eq_add_neg a.z b.z ▸ rfl

/-- The slab distance of `intersect` equals the spec's entry time when
`0 < entry < exit` holds strictly, and the `MAXFLOAT` sentinel otherwise. -/
theorem intersect_dist (bbox : BBox) (ray : Ray) :
    (intersect bbox ray).dist =
      if 0 < slabEntry bbox ray ∧ slabEntry bbox ray < slabExit bbox ray
      then slabEntry bbox ray else MAXFLOAT := by
  simp only [intersect, slabEntry, slabExit, entryX, entryY, entryZ,
    exitX, exitY, exitZ, fmin, fmax, float3_sub_x, float3_sub_y, float3_sub_z,
    float3_mul_x, float3_mul_y, float3_mul_z]

/-- The axis-mask flags of `intersect`, unfolded to their defining
comparisons. -/
theorem intersect_masks (bbox : BBox) (ray : Ray) :
    (intersect bbox ray).a_mask = decide (entryX bbox ray ≥ entryY bbox ray) ∧
    (intersect bbox ray).b_mask =
      decide (max (entryX bbox ray) (entryY bbox ray) ≥ entryZ bbox ray) := by
  constructor <;>
    simp only [intersect, entryX, entryY, entryZ, fmin, fmax,
      float3_sub_x, float3_sub_y, float3_sub_z,
      float3_mul_x, float3_mul_y, float3_mul_z]

/-- Claim C1: for every axis-aligned box and ray, the slab test hits iff
`0 < entry < exit` with strict inequality on both bounds, where `entry` is
the maximum over the three axes of `min(t0, t1)` and `exit` the minimum over
the three axes of `max(t0, t1)` with `t0 = (min - origin) * rcpdir` and
`t1 = (max - origin) * rcpdir`; the returned distance is `entry` on a hit
and the `MAXFLOAT` sentinel otherwise, so a ray starting exactly on a face
or tangent to the box (entry equal to zero or to exit) is a miss. -/
theorem intersect_slab_characterization (bbox : BBox) (ray : Ray) :
    (intersect bbox ray).dist =
      if 0 < slabEntry bbox ray ∧ slabEntry bbox ray < slabExit bbox ray
      then slabEntry bbox ray else MAXFLOAT :=
  intersect_dist bbox ray

/-- Claim C8: the component-wise reciprocal maps a zero component to the
saturating `MAXFLOAT` value and every nonzero component to its exact
multiplicative inverse, and the vector division operator applies this same
reciprocal policy. -/
theorem rcp_zero_policy (v : float3) :
    (v.x = 0 → v.rcp.x = MAXFLOAT) ∧ (v.x ≠ 0 → v.x * v.rcp.x = 1) ∧
    (v.y = 0 → v.rcp.y = MAXFLOAT) ∧ (v.y ≠ 0 → v.y * v.rcp.y = 1) ∧
    (v.z = 0 → v.rcp.z = MAXFLOAT) ∧ (v.z ≠ 0 → v.z * v.rcp.z = 1) ∧
    (∀ a b : float3, a / b = a * b.rcp) := by
  refine ⟨fun h => by simp [float3.rcp, h],
          fun h => by simp [float3.rcp, h, mul_one_div_cancel],
          fun h => by simp [float3.rcp, h],
          fun h => by simp [float3.rcp, h, mul_one_div_cancel],
          fun h => by simp [float3.rcp, h],
          fun h => by simp [float3.rcp, h, mul_one_div_cancel],
          fun a b => rfl⟩

/-- Witness for claim C8 at the concrete vector `(0, 2, 3)`. -/
theorem rcp_zero_policy_witness :
    (float3.rcp ⟨0, 2, 3⟩).x = MAXFLOAT ∧ (2 : ℚ) * (float3.rcp ⟨0, 2, 3⟩).y = 1 :=
  ⟨(rcp_zero_policy ⟨0, 2, 3⟩).1 rfl,
   (rcp_zero_policy ⟨0, 2, 3⟩).2.2.2.1 (by norm_num)⟩

/-- Claim C3 counterexample: at a matrix with distinct rows and a 256x128
image, the assembled basis does not scale the right vector (row 0, the X
row) by `image_h/image_w`; the scale lands on row 1 (the Y row, the up
vector) instead. -/
theorem mkCam_counterexample :
    ¬ ((mkCam camMatC 256 128 0).y = camMatC 0 1 * ((128 : ℚ) / 256)) ∧
    (mkCam camMatC 256 128 1).y = camMatC 1 1 * ((128 : ℚ) / 256) := by
  have h0 : (mkCam camMatC 256 128 0).y = camMatC 0 1 := rfl
  constructor
  · rw [h0]
    norm_num [camMatC]
  · have h1 : (mkCam camMatC 256 128 1).y =
        camMatC 1 1 * (((128 : ℕ) : ℚ) / ((256 : ℕ) : ℚ)) := rfl
    rw [h1]
    norm_num

/-- Claim C3 (amended): the camera basis assembled for the per-pixel
renderer takes the four rows of the composed inverse view matrix, scales the
up vector (row 1, the Y row — not the right vector on the X row) by
`image_h/image_w`, negates the forward vector, and passes the eye position
unscaled. -/
theorem mkCam_spec (mv : matx4) (image_w image_h : ℕ) :
    mkCam mv image_w image_h = specCameraBasis mv image_w image_h := by
  funext i
  fin_cases i <;> rfl

theorem MAXFLOAT_pos : (0 : ℚ) < MAXFLOAT := by norm_num [MAXFLOAT]

/-- A rational clamped between two ordered bounds lands inside them. -/
theorem qclamp_bounds (v lo hi : ℚ) (h : lo ≤ hi) :
    lo ≤ max (min v hi) lo ∧ max (min v hi) lo ≤ hi :=
  ⟨le_max_right _ _, max_le (min_le_right _ _) h⟩

/-- Claim C5: the renderer decodes the linear index as
`(row, col) = (index / width, index % width)`, forms the direction
`right*((2*col - width)/width) + up*((2*row - height)/height) + forward`,
builds the ray from the eye with reciprocal direction
`clamp(reciprocal(d), -MAXFLOAT/2, MAXFLOAT/2)`, and therefore every traced
ray has each reciprocal-direction component inside
`[-MAXFLOAT/2, MAXFLOAT/2]`. -/
theorem mkRay_spec (index width height : ℕ) (cam : Fin 4 → float3)
    (hw : 0 < width) (hh : 0 < height) :
    mkRay index width height cam = specPixelRay index width height cam ∧
    (-MAXFLOAT / 2 ≤ (mkRay index width height cam).rcpdir.x ∧
      (mkRay index width height cam).rcpdir.x ≤ MAXFLOAT / 2) ∧
    (-MAXFLOAT / 2 ≤ (mkRay index width height cam).rcpdir.y ∧
      (mkRay index width height cam).rcpdir.y ≤ MAXFLOAT / 2) ∧
    (-MAXFLOAT / 2 ≤ (mkRay index width height cam).rcpdir.z ∧
      (mkRay index width height cam).rcpdir.z ≤ MAXFLOAT / 2) := by
  have e1 : ∀ a b : ℚ, (a * 2 - b) * (1 / b) = (2 * a - b) / b := by
    intro a b
    rw [mul_one_div, mul_comm a 2]
  have hb : (-MAXFLOAT / 2 : ℚ) ≤ MAXFLOAT / 2 := by
    have := MAXFLOAT_pos
    linarith
  refine ⟨?_, qclamp_bounds _ _ _ hb, qclamp_bounds _ _ _ hb,
    qclamp_bounds _ _ _ hb⟩
  simp only [mkRay, specPixelRay, mkRayDir, e1]

/-- Witness for claim C5 at a concrete index, resolution and camera. -/
theorem mkRay_spec_witness :
    0 < 2 ∧ mkRay 5 2 2 camW = specPixelRay 5 2 2 camW :=
  ⟨by norm_num, (mkRay_spec 5 2 2 camW (by norm_num) (by norm_num)).1⟩

theorem foldl_min_le_init (l : List ℚ) (a : ℚ) : l.foldl min a ≤ a := by
  induction l generalizing a with
  | nil => exact le_refl a
  | cons x t ih => exact le_trans (ih (min a x)) (min_le_left a x)

theorem foldl_min_le_mem (l : List ℚ) (a : ℚ) : ∀ q ∈ l, l.foldl min a ≤ q := by
  induction l generalizing a with
  | nil => intro q hq; cases hq
  | cons x t ih =>
    intro q hq
    rcases List.mem_cons.mp hq with hqx | hqt
    · subst hqx
      exact le_trans (foldl_min_le_init t (min a q)) (min_le_right a q)
    · exact ih (min a x) q hqt

theorem foldl_min_attained (l : List ℚ) (a : ℚ) :
    l.foldl min a = a ∨ l.foldl min a ∈ l := by
  induction l generalizing a with
  | nil => exact Or.inl rfl
  | cons x t ih =>
    rcases ih (min a x) with h | h
    · rcases le_total a x with hax | hxa
      · exact Or.inl (by rw [List.foldl_cons, h, min_eq_left hax])
      · exact Or.inr (by rw [List.foldl_cons, h, min_eq_right hxa]; exact List.mem_cons_self x t)
    · exact Or.inr (List.mem_cons_of_mem x h)

theorem foldl_max_ge_init (l : List ℚ) (a : ℚ) : a ≤ l.foldl max a := by
  induction l generalizing a with
  | nil => exact le_refl a
  | cons x t ih => exact le_trans (le_max_left a x) (ih (max a x))

theorem foldl_max_ge_mem (l : List ℚ) (a : ℚ) : ∀ q ∈ l, q ≤ l.foldl max a := by
  induction l generalizing a with
  | nil => intro q hq; cases hq
  | cons x t ih =>
    intro q hq
    rcases List.mem_cons.mp hq with hqx | hqt
    · subst hqx
      exact le_trans (le_max_right a q) (foldl_max_ge_init t (max a q))
    · exact ih (max a x) q hqt

theorem foldl_max_attained (l : List ℚ) (a : ℚ) :
    l.foldl max a = a ∨ l.foldl max a ∈ l := by
  induction l generalizing a with
  | nil => exact Or.inl rfl
  | cons x t ih =>
    rcases ih (max a x) with h | h
    · rcases le_total a x with hax | hxa
      · exact Or.inr (by rw [List.foldl_cons, h, max_eq_right hax]; exact List.mem_cons_self x t)
      · exact Or.inl (by rw [List.foldl_cons, h, max_eq_left hxa])
    · exact Or.inr (List.mem_cons_of_mem x h)

/-- A minimum fold over a nonempty list of values below the cap is attained
by a member of the list. -/
theorem foldl_min_attains (l : List ℚ) (hl : l ≠ [])
    (hb : ∀ q ∈ l, q ≤ MAXFLOAT) : ∃ q ∈ l, l.foldl min MAXFLOAT = q := by
  rcases foldl_min_attained l MAXFLOAT with h | h
  · rcases List.exists_mem_of_ne_nil l hl with ⟨q, hq⟩
    refine ⟨q, hq, le_antisymm (foldl_min_le_mem l MAXFLOAT q hq) ?_⟩
    rw [h]
    exact hb q hq
  · exact ⟨_, h, rfl⟩

/-- A maximum fold over a nonempty list of values above the cap is attained
by a member of the list. -/
theorem foldl_max_attains (l : List ℚ) (hl : l ≠ [])
    (hb : ∀ q ∈ l, -MAXFLOAT ≤ q) :
    ∃ q ∈ l, l.foldl max (-MAXFLOAT) = q := by
  rcases foldl_max_attained l (-MAXFLOAT) with h | h
  · rcases List.exists_mem_of_ne_nil l hl with ⟨q, hq⟩
    refine ⟨q, hq, le_antisymm ?_ (foldl_max_ge_mem l (-MAXFLOAT) q hq)⟩
    rw [h]
    exact hb q hq
  · exact ⟨_, h, rfl⟩

/-- Component-wise reading of the bounding-box fold. -/
theorem sceneFold_comp (scene : List BBox) : ∀ acc : float3 × float3,
    (sceneFold scene acc).1.x = (scene.map fun b => b.min.x).foldl min acc.1.x ∧
    (sceneFold scene acc).1.y = (scene.map fun b => b.min.y).foldl min acc.1.y ∧
    (sceneFold scene acc).1.z = (scene.map fun b => b.min.z).foldl min acc.1.z ∧
    (sceneFold scene acc).2.x = (scene.map fun b => b.max.x).foldl max acc.2.x ∧
    (sceneFold scene acc).2.y = (scene.map fun b => b.max.y).foldl max acc.2.y ∧
    (sceneFold scene acc).2.z = (scene.map fun b => b.max.z).foldl max acc.2.z := by
  induction scene with
  | nil => exact fun acc => ⟨rfl, rfl, rfl, rfl, rfl, rfl⟩
  | cons b t ih =>
    intro acc
    simpa [sceneFold, fmin, fmax] using ih (fmin acc.1 b.min, fmax acc.2 b.max)

/-- Claim C4: the scene bounding-box reduction folds component-wise `min`
of box minima and `max` of box maxima from the
`(+MAXFLOAT,+MAXFLOAT,+MAXFLOAT)/(-MAXFLOAT,-MAXFLOAT,-MAXFLOAT)`
accumulator; on the empty scene it returns the degenerate sentinel box, and
on any scene of in-range boxes it returns exactly the component-wise
minimum of all minima and maximum of all maxima, attained by scene
members. -/
theorem computeSceneBBox_spec (scene : List BBox) (hb : sceneBounded scene) :
    (scene = [] → computeSceneBBox scene =
      ⟨⟨MAXFLOAT, MAXFLOAT, MAXFLOAT⟩, ⟨-MAXFLOAT, -MAXFLOAT, -MAXFLOAT⟩⟩) ∧
    ((computeSceneBBox scene).min.x =
        (scene.map fun b => b.min.x).foldl min MAXFLOAT ∧
      (computeSceneBBox scene).min.y =
        (scene.map fun b => b.min.y).foldl min MAXFLOAT ∧
      (computeSceneBBox scene).min.z =
        (scene.map fun b => b.min.z).foldl min MAXFLOAT ∧
      (computeSceneBBox scene).max.x =
        (scene.map fun b => b.max.x).foldl max (-MAXFLOAT) ∧
      (computeSceneBBox scene).max.y =
        (scene.map fun b => b.max.y).foldl max (-MAXFLOAT) ∧
      (computeSceneBBox scene).max.z =
        (scene.map fun b => b.max.z).foldl max (-MAXFLOAT)) ∧
    (∀ b ∈ scene,
      (computeSceneBBox scene).min.x ≤ b.min.x ∧
      (computeSceneBBox scene).min.y ≤ b.min.y ∧
      (computeSceneBBox scene).min.z ≤ b.min.z ∧
      b.max.x ≤ (computeSceneBBox scene).max.x ∧
      b.max.y ≤ (computeSceneBBox scene).max.y ∧
      b.max.z ≤ (computeSceneBBox scene).max.z) ∧
    (scene ≠ [] →
      (∃ b ∈ scene, (computeSceneBBox scene).min.x = b.min.x) ∧
      (∃ b ∈ scene, (computeSceneBBox scene).min.y = b.min.y) ∧
      (∃ b ∈ scene, (computeSceneBBox scene).min.z = b.min.z) ∧
      (∃ b ∈ scene, (computeSceneBBox scene).max.x = b.max.x) ∧
      (∃ b ∈ scene, (computeSceneBBox scene).max.y = b.max.y) ∧
      (∃ b ∈ scene, (computeSceneBBox scene).max.z = b.max.z)) := by
  obtain ⟨c1, c2, c3, c4, c5, c6⟩ := sceneFold_comp scene
    (⟨MAXFLOAT, MAXFLOAT, MAXFLOAT⟩, ⟨-MAXFLOAT, -MAXFLOAT, -MAXFLOAT⟩)
  have hbox : computeSceneBBox scene =
      ⟨(sceneFold scene (⟨MAXFLOAT, MAXFLOAT, MAXFLOAT⟩,
          ⟨-MAXFLOAT, -MAXFLOAT, -MAXFLOAT⟩)).1,
       (sceneFold scene (⟨MAXFLOAT, MAXFLOAT, MAXFLOAT⟩,
          ⟨-MAXFLOAT, -MAXFLOAT, -MAXFLOAT⟩)).2⟩ := rfl
  refine ⟨fun he => by subst he; rfl, ⟨?_, ?_, ?_, ?_, ?_, ?_⟩, ?_, fun hne => ?_⟩
  · rw [hbox]; exact c1
  · rw [hbox]; exact c2
  · rw [hbox]; exact c3
  · rw [hbox]; exact c4
  · rw [hbox]; exact c5
  · rw [hbox]; exact c6
  · intro b hbm
    rw [hbox]
    refine ⟨c1 ▸ ?_, c2 ▸ ?_, c3 ▸ ?_, c4 ▸ ?_, c5 ▸ ?_, c6 ▸ ?_⟩
    · exact foldl_min_le_mem _ _ _ (List.mem_map_of_mem _ hbm)
    · exact foldl_min_le_mem _ _ _ (List.mem_map_of_mem _ hbm)
    · exact foldl_min_le_mem _ _ _ (List.mem_map_of_mem _ hbm)
    · exact foldl_max_ge_mem _ _ _ (List.mem_map_of_mem _ hbm)
    · exact foldl_max_ge_mem _ _ _ (List.mem_map_of_mem _ hbm)
    · exact foldl_max_ge_mem _ _ _ (List.mem_map_of_mem _ hbm)
  · have hmapne : ∀ f : BBox → ℚ, scene.map f ≠ [] := by
      intro f hmap
      exact hne (List.map_eq_nil_iff.mp hmap)
    have hattain_min : ∀ f : BBox → ℚ, (∀ b ∈ scene, f b ≤ MAXFLOAT) →
        ∃ b ∈ scene, (scene.map f).foldl min MAXFLOAT = f b := by
      intro f hf
      obtain ⟨q, hq, hfold⟩ := foldl_min_attains (scene.map f) (hmapne f)
        (by
          intro q hq
          obtain ⟨b, hbm, rfl⟩ := List.mem_map.mp hq
          exact hf b hbm)
      obtain ⟨b, hbm, rfl⟩ := List.mem_map.mp hq
      exact ⟨b, hbm, hfold⟩
    have hattain_max : ∀ f : BBox → ℚ, (∀ b ∈ scene, -MAXFLOAT ≤ f b) →
        ∃ b ∈ scene, (scene.map f).foldl max (-MAXFLOAT) = f b := by
      intro f hf
      obtain ⟨q, hq, hfold⟩ := foldl_max_attains (scene.map f) (hmapne f)
        (by
          intro q hq
          obtain ⟨b, hbm, rfl⟩ := List.mem_map.mp hq
          exact hf b hbm)
      obtain ⟨b, hbm, rfl⟩ := List.mem_map.mp hq
      exact ⟨b, hbm, hfold⟩
    rw [hbox]
    exact ⟨c1 ▸ hattain_min _ (fun b hm => (hb b hm).1),
           c2 ▸ hattain_min _ (fun b hm => (hb b hm).2.1),
           c3 ▸ hattain_min _ (fun b hm => (hb b hm).2.2.1),
           c4 ▸ hattain_max _ (fun b hm => (hb b hm).2.2.2.1),
           c5 ▸ hattain_max _ (fun b hm => (hb b hm).2.2.2.2.1),
           c6 ▸ hattain_max _ (fun b hm => (hb b hm).2.2.2.2.2)⟩

/-- Witness for claim C4 on a concrete one-box scene. -/
theorem computeSceneBBox_spec_witness :
    sceneBounded [boxAW] ∧ (computeSceneBBox [boxAW]).min.x ≤ boxAW.min.x := by
  have hsb : sceneBounded [boxAW] := by
    intro b hbm
    rw [List.mem_singleton] at hbm
    subst hbm
    refine ⟨?_, ?_, ?_, ?_, ?_, ?_⟩ <;> norm_num [boxAW, MAXFLOAT]
  exact ⟨hsb,
    (((computeSceneBBox_spec [boxAW] hsb).2.2.1) boxAW
      (List.mem_singleton_self boxAW)).1⟩

/-- A scan over hits that all carry the sentinel distance keeps the default
accumulator. -/
theorem scan_all_miss (scene : List BBox) (ray : Ray)
    (h : ∀ b ∈ scene, (intersect b ray).dist = MAXFLOAT) :
    scanClosest scene ray = Hit.init := by
  induction scene with
  | nil => rfl
  | cons b t ih =>
    have hb := h b (List.mem_cons_self b t)
    have hstep : stepHit Hit.init (intersect b ray) = Hit.init := by
      simp [stepHit, hb, Hit.init]
    simp only [scanClosest, List.foldl_cons, hstep]
    exact ih fun x hx => h x (List.mem_cons_of_mem b hx)

/-- Claim C6: a pixel whose ray misses every voxel of the scene — no box
passes the strict slab hit test, so the best distance stays at the
`MAXFLOAT` sentinel — renders the background sample `(0,0,0)`. -/
theorem shootRay_miss_background (global_idx image_w image_h : ℕ)
    (cam : Fin 4 → float3) (scene : List BBox)
    (hmiss : ∀ b ∈ scene,
      ¬ (0 < slabEntry b (mkRay global_idx image_w image_h cam) ∧
         slabEntry b (mkRay global_idx image_w image_h cam) <
           slabExit b (mkRay global_idx image_w image_h cam))) :
    shootRay global_idx image_w image_h cam scene = Pixel.mk 0 0 0 := by
  have hd : ∀ b ∈ scene,
      (intersect b (mkRay global_idx image_w image_h cam)).dist = MAXFLOAT := by
    intro b hb
    rw [intersect_dist]
    exact if_neg (hmiss b hb)
  simp only [shootRay, scan_all_miss _ _ hd]
  simp [Hit.init, Pixel.ofSame]

theorem mk_add (ax ay az cx cy cz : ℚ) :
    float3.mk ax ay az + float3.mk cx cy cz = ⟨ax + cx, ay + cy, az + cz⟩ := rfl

theorem mk_mul (ax ay az cx cy cz : ℚ) :
    float3.mk ax ay az * float3.mk cx cy cz = ⟨ax * cx, ay * cy, az * cz⟩ := rfl

theorem rcp_mk (ax ay az : ℚ) :
    float3.rcp ⟨ax, ay, az⟩ =
      ⟨if ax ≠ 0 then 1 / ax else MAXFLOAT,
       if ay ≠ 0 then 1 / ay else MAXFLOAT,
       if az ≠ 0 then 1 / az else MAXFLOAT⟩ := rfl

/-- Concrete evaluation of the witness pixel ray: at index 0 of a 2x2 image
with the identity camera basis, the traced ray starts at the origin with
reciprocal direction `(-1, -1, 1)`. -/
theorem mkRay_witness_eval : mkRay 0 2 2 camW = ⟨⟨0, 0, 0⟩, ⟨-1, -1, 1⟩⟩ := by
  have hdir : mkRayDir 0 2 2 camW = ⟨-1, -1, 1⟩ := by
    simp only [mkRayDir, camW]
    norm_num [float3.same, Matrix.cons_val_zero, Matrix.cons_val_one,
      Matrix.head_cons, mk_mul, mk_add, float3.mk.injEq]
  have hc3 : camW 3 = ⟨0, 0, 0⟩ := rfl
  simp only [mkRay, hdir, hc3]
  norm_num [rcp_mk, clamp, fmin, fmax, float3.same, min_def, max_def, MAXFLOAT,
    Ray.mk.injEq, float3.mk.injEq]

/-- Witness for claim C6: a concrete one-box scene missed by the concrete
pixel ray renders the background. -/
theorem shootRay_miss_background_witness :
    (∀ b ∈ [bbMissW],
      ¬ (0 < slabEntry b (mkRay 0 2 2 camW) ∧
         slabEntry b (mkRay 0 2 2 camW) < slabExit b (mkRay 0 2 2 camW))) ∧
    shootRay 0 2 2 camW [bbMissW] = Pixel.mk 0 0 0 := by
  have hm : ∀ b ∈ [bbMissW],
      ¬ (0 < slabEntry b (mkRay 0 2 2 camW) ∧
         slabEntry b (mkRay 0 2 2 camW) < slabExit b (mkRay 0 2 2 camW)) := by
    intro b hb
    rw [List.mem_singleton] at hb
    subst hb
    rw [mkRay_witness_eval]
    norm_num [slabEntry, slabExit, entryX, entryY, entryZ, exitX, exitY, exitZ,
      bbMissW, min_def, max_def]
  exact ⟨hm, shootRay_miss_background 0 2 2 camW [bbMissW] hm⟩

/-- Claim C10: every sample the renderer emits is one of exactly four RGB
values — the background `(0,0,0)` or one of the three axis colors
`(255,127,127)`, `(127,255,127)`, `(127,127,255)` — because a hit's normal
is a unit axis vector remapped by `*0.5+0.5` and converted to bytes by
truncating multiplication with 255. -/
theorem shootRay_palette (global_idx image_w image_h : ℕ)
    (cam : Fin 4 → float3) (scene : List BBox) :
    shootRay global_idx image_w image_h cam scene = Pixel.mk 0 0 0 ∨
    shootRay global_idx image_w image_h cam scene = Pixel.mk 255 127 127 ∨
    shootRay global_idx image_w image_h cam scene = Pixel.mk 127 255 127 ∨
    shootRay global_idx image_w image_h cam scene = Pixel.mk 127 127 255 := by
  simp only [shootRay]
  by_cases hd : MAXFLOAT ≠
      (scanClosest scene (mkRay global_idx image_w image_h cam)).dist
  · rw [if_pos hd]
    cases hb : (scanClosest scene (mkRay global_idx image_w image_h cam)).b_mask
    · refine Or.inr (Or.inr (Or.inr ?_))
      simp only [hb, Bool.false_eq_true, if_false]
      norm_num [Pixel.ofFloat3, ratTrunc, float3.same, mk_mul, mk_add,
        Pixel.mk.injEq]
      all_goals omega
    · cases ha : (scanClosest scene (mkRay global_idx image_w image_h cam)).a_mask
      · refine Or.inr (Or.inr (Or.inl ?_))
        simp only [hb, ha, Bool.false_eq_true, if_true, if_false]
        norm_num [Pixel.ofFloat3, ratTrunc, float3.same, mk_mul, mk_add,
          Pixel.mk.injEq]
        all_goals omega
      · refine Or.inr (Or.inl ?_)
        simp only [hb, ha, if_true]
        norm_num [Pixel.ofFloat3, ratTrunc, float3.same, mk_mul, mk_add,
          Pixel.mk.injEq]
        all_goals omega
  · rw [if_neg hd]
    exact Or.inl rfl

theorem Hit_init_dist : Hit.init.dist = MAXFLOAT := rfl

/-- The spec-side closest hit never reports a distance beyond the
sentinel. -/
theorem specClosestHit_dist_le (ray : Ray) (scene : List BBox) :
    (specClosestHit scene ray).dist ≤ MAXFLOAT := by
  induction scene with
  | nil => exact le_refl MAXFLOAT
  | cons b t ih =>
    simp only [specClosestHit]
    split_ifs with h
    · exact le_of_lt h.1
    · exact ih

/-- The spec-side closest hit either reports a real hit or is exactly the
default sentinel hit. -/
theorem specClosestHit_default (ray : Ray) (scene : List BBox) :
    (specClosestHit scene ray).dist < MAXFLOAT ∨
      specClosestHit scene ray = Hit.init := by
  induction scene with
  | nil => exact Or.inr rfl
  | cons b t ih =>
    simp only [specClosestHit]
    split_ifs with h
    · exact Or.inl h.1
    · exact ih

/-- The strict-comparison scan from any accumulator not beyond the sentinel
computes the spec-side closest hit, falling back to the accumulator when the
spec hit is not strictly closer. -/
theorem foldl_stepHit_spec (ray : Ray) (scene : List BBox) :
    ∀ c : Hit, c.dist ≤ MAXFLOAT →
      scene.foldl (fun acc b => stepHit acc (intersect b ray)) c =
        if (specClosestHit scene ray).dist < c.dist
        then specClosestHit scene ray else c := by
  induction scene with
  | nil =>
    intro c hc
    simp only [List.foldl_nil, specClosestHit, Hit_init_dist]
    rw [if_neg (not_lt.mpr hc)]
  | cons b t ih =>
    intro c hc
    simp only [List.foldl_cons, specClosestHit]
    by_cases h1 : (intersect b ray).dist < c.dist
    · have hstep : stepHit c (intersect b ray) = intersect b ray := by
        simp [stepHit, h1]
      rw [hstep, ih _ (le_of_lt (lt_of_lt_of_le h1 hc))]
      by_cases hw : (intersect b ray).dist < MAXFLOAT ∧
          (intersect b ray).dist ≤ (specClosestHit t ray).dist
      · rw [if_neg (not_lt.mpr hw.2), if_pos hw, if_pos h1]
      · have hdh : (intersect b ray).dist < MAXFLOAT := lt_of_lt_of_le h1 hc
        have hdr : (specClosestHit t ray).dist < (intersect b ray).dist :=
          not_le.mp fun hle => hw ⟨hdh, hle⟩
        rw [if_pos hdr, if_neg hw, if_pos (lt_trans hdr h1)]
    · have hstep : stepHit c (intersect b ray) = c := by
        simp [stepHit, h1]
      rw [hstep, ih c hc]
      by_cases hw : (intersect b ray).dist < MAXFLOAT ∧
          (intersect b ray).dist ≤ (specClosestHit t ray).dist
      · rw [if_neg (not_lt.mpr (le_trans (not_lt.mp h1) hw.2)), if_pos hw,
          if_neg h1]
      · rw [if_neg hw]

/-- The renderer's scan agrees with the spec-side closest-hit selection. -/
theorem scanClosest_eq_spec (scene : List BBox) (ray : Ray) :
    scanClosest scene ray = specClosestHit scene ray := by
  have h := foldl_stepHit_spec ray scene Hit.init (le_refl MAXFLOAT)
  rw [scanClosest, h]
  simp only [Hit_init_dist]
  rcases specClosestHit_default ray scene with hlt | heq
  · rw [if_pos hlt]
  · rw [heq]
    split_ifs <;> rfl

/-- The spec-side closest-hit distance is the capped minimum distance. -/
theorem specClosestHit_dist (ray : Ray) (scene : List BBox) :
    (specClosestHit scene ray).dist = minHitDist scene ray := by
  induction scene with
  | nil => rfl
  | cons b t ih =>
    have hcons : minHitDist (b :: t) ray =
        min (intersect b ray).dist (minHitDist t ray) := rfl
    simp only [specClosestHit]
    rw [hcons]
    split_ifs with h
    · rw [← ih]
      exact (min_eq_left h.2).symm
    · rw [← ih]
      rcases le_or_lt (intersect b ray).dist (specClosestHit t ray).dist
        with hle | hlt
      · have hMF : MAXFLOAT ≤ (intersect b ray).dist :=
          not_lt.mp fun hlt2 => h ⟨hlt2, hle⟩
        exact (min_eq_right
          (le_trans (specClosestHit_dist_le ray t) hMF)).symm
      · exact (min_eq_right (le_of_lt hlt)).symm

/-- The capped minimum distance is invariant under scene permutation. -/
theorem minHitDist_perm (ray : Ray) {s s' : List BBox} (hp : s.Perm s') :
    minHitDist s ray = minHitDist s' ray := by
  induction hp with
  | nil => rfl
  | cons x _ ih =>
    have ih2 := ih
    simp only [minHitDist, List.foldr_cons] at ih2 ⊢
    rw [ih2]
  | swap x y l =>
    simp only [minHitDist, List.foldr_cons]
    rw [min_left_comm]
  | trans _ _ ih1 ih2 => exact ih1.trans ih2

/-- Claim C2: the scan keeps a candidate only when strictly closer, so the
reported hit is exactly the spec-side nearest hit — the geometrically
nearest box with equal-distance ties resolved to the earlier box in the
sequence, supplying that box's shading masks — and the resulting distance is
unchanged under any reordering of the scene. -/
theorem scanClosest_ordering (ray : Ray) (scene scene' : List BBox)
    (hperm : scene.Perm scene') :
    scanClosest scene ray = specClosestHit scene ray ∧
    (scanClosest scene ray).dist = (scanClosest scene' ray).dist := by
  refine ⟨scanClosest_eq_spec scene ray, ?_⟩
  rw [scanClosest_eq_spec scene ray, scanClosest_eq_spec scene' ray,
    specClosestHit_dist, specClosestHit_dist, minHitDist_perm ray hperm]

/-- Witness for claim C2 on a concrete two-box scene and its swap. -/
theorem scanClosest_ordering_witness :
    [boxAW, boxBW].Perm [boxBW, boxAW] ∧
    scanClosest [boxAW, boxBW] rayW = specClosestHit [boxAW, boxBW] rayW :=
  ⟨List.Perm.swap boxBW boxAW [],
   (scanClosest_ordering rayW [boxAW, boxBW] [boxBW, boxAW]
     (List.Perm.swap boxBW boxAW [])).1⟩

/-- The hit component of the index-recording scan coincides with the plain
scan from the same accumulator. -/
theorem scanRecord_fst_general (l : List Hit) : ∀ (k : ℕ) (c : Hit) (io : Option ℕ),
    ((List.enumFrom k l).foldl stepIdx (c, io)).1 = l.foldl stepHit c := by
  induction l with
  | nil => intro k c io; rfl
  | cons a t ih =>
    intro k c io
    have he : List.enumFrom k (a :: t) = (k, a) :: List.enumFrom (k + 1) t := rfl
    rw [he, List.foldl_cons, List.foldl_cons]
    by_cases h : a.dist < c.dist
    · have h1 : stepIdx (c, io) (k, a) = (a, some k) := by simp [stepIdx, h]
      have h2 : stepHit c a = a := by simp [stepHit, h]
      rw [h1, h2, ih]
    · have h1 : stepIdx (c, io) (k, a) = (c, io) := by simp [stepIdx, h]
      have h2 : stepHit c a = c := by simp [stepHit, h]
      rw [h1, h2, ih]

/-- The index component of the recording scan depends only on the distance
sequence and the accumulator distance, never on the mask flags. -/
theorem scanRecord_snd_general (l : List Hit) :
    ∀ (l' : List Hit) (k : ℕ) (c c' : Hit) (io : Option ℕ),
    l.map Hit.dist = l'.map Hit.dist → c.dist = c'.dist →
    ((List.enumFrom k l).foldl stepIdx (c, io)).2 =
      ((List.enumFrom k l').foldl stepIdx (c', io)).2 := by
  induction l with
  | nil =>
    intro l' k c c' io hmap _
    cases l' with
    | nil => rfl
    | cons a' t' => simp at hmap
  | cons a t ih =>
    intro l' k c c' io hmap hc
    cases l' with
    | nil => simp at hmap
    | cons a' t' =>
      simp only [List.map_cons, List.cons.injEq] at hmap
      obtain ⟨ha, ht⟩ := hmap
      have he : List.enumFrom k (a :: t) = (k, a) :: List.enumFrom (k + 1) t := rfl
      have he' : List.enumFrom k (a' :: t') = (k, a') :: List.enumFrom (k + 1) t' := rfl
      rw [he, he', List.foldl_cons, List.foldl_cons]
      by_cases h : a.dist < c.dist
      · have h' : a'.dist < c'.dist := ha ▸ hc ▸ h
        have h1 : stepIdx (c, io) (k, a) = (a, some k) := by simp [stepIdx, h]
        have h2 : stepIdx (c', io) (k, a') = (a', some k) := by simp [stepIdx, h']
        rw [h1, h2]
        exact ih t' (k + 1) a a' (some k) ht ha
      · have h' : ¬ a'.dist < c'.dist := ha ▸ hc ▸ h
        have h1 : stepIdx (c, io) (k, a) = (c, io) := by simp [stepIdx, h]
        have h2 : stepIdx (c', io) (k, a') = (c', io) := by simp [stepIdx, h']
        rw [h1, h2]
        exact ih t' (k + 1) c c' io ht hc

/-- Claim C7: the two mask flags computed by the pairwise `>=` comparisons
identify which axis supplied the maximum per-axis entry (`b_mask` false
selects Z; `b_mask` true with `a_mask` true selects X, else Y), and the
flags have no effect on which hit the scan chooses as closest: the chosen
loop index depends only on the distance sequence, and the chosen hit is the
plain distance-only scan of the intersect results. -/
theorem intersect_axis_masks (bbox : BBox) (ray : Ray) :
    ((intersect bbox ray).b_mask = false →
      slabEntry bbox ray = entryZ bbox ray) ∧
    ((intersect bbox ray).b_mask = true → (intersect bbox ray).a_mask = true →
      slabEntry bbox ray = entryX bbox ray) ∧
    ((intersect bbox ray).b_mask = true → (intersect bbox ray).a_mask = false →
      slabEntry bbox ray = entryY bbox ray) ∧
    (∀ hits hits' : List Hit, hits.map Hit.dist = hits'.map Hit.dist →
      (scanRecord hits).2 = (scanRecord hits').2) ∧
    (∀ hits : List Hit, (scanRecord hits).1 = scanHits hits) ∧
    (∀ s : List BBox,
      scanClosest s ray = scanHits (s.map fun b => intersect b ray)) := by
  obtain ⟨hma, hmb⟩ := intersect_masks bbox ray
  refine ⟨?_, ?_, ?_, ?_, ?_, ?_⟩
  · intro hb
    rw [hmb] at hb
    have hz := not_le.mp (of_decide_eq_false hb)
    exact max_eq_right (le_of_lt hz)
  · intro hb ha
    rw [hmb] at hb
    rw [hma] at ha
    have hbz := of_decide_eq_true hb
    have hxy := of_decide_eq_true ha
    have hxy2 : max (entryX bbox ray) (entryY bbox ray) = entryX bbox ray :=
      max_eq_left hxy
    rw [slabEntry, hxy2]
    exact max_eq_left (hxy2 ▸ hbz)
  · intro hb ha
    rw [hmb] at hb
    rw [hma] at ha
    have hbz := of_decide_eq_true hb
    have hyx : entryX bbox ray < entryY bbox ray :=
      not_le.mp (of_decide_eq_false ha)
    have hxy2 : max (entryX bbox ray) (entryY bbox ray) = entryY bbox ray :=
      max_eq_right (le_of_lt hyx)
    rw [slabEntry, hxy2]
    exact max_eq_left (hxy2 ▸ hbz)
  · intro hits hits' hmap
    exact scanRecord_snd_general hits hits' 0 Hit.init Hit.init none hmap rfl
  · intro hits
    exact scanRecord_fst_general hits 0 Hit.init none
  · intro s
    simp [scanClosest, scanHits, List.foldl_map]

/-- Witness for claim C7: a concrete box-ray pair whose binding axis is Z,
and a concrete pair of equal-distance mask-differing hit lists on which the
scan records the same index. -/
theorem intersect_axis_masks_witness :
    slabEntry boxAW rayZW = entryZ boxAW rayZW ∧
    (scanRecord hitPairW.1).2 = (scanRecord hitPairW.2).2 := by
  have h := intersect_axis_masks boxAW rayZW
  constructor
  · apply h.1
    rw [(intersect_masks boxAW rayZW).2]
    refine decide_eq_false ?_
    norm_num [entryX, entryY, entryZ, boxAW, rayZW, min_def, max_def]
  · apply h.2.2.2.1
    rfl

/-- Total byte length of the flattened sample array: three bytes per
`Pixel`. -/
theorem pixelBytes_flatten_length (ps : List Pixel) :
    ((ps.map pixelBytes).flatten).length = 3 * ps.length := by
  induction ps with
  | nil => rfl
  | cons p t ih =>
    simp only [List.map_cons, List.flatten_cons, List.length_append, ih,
      pixelBytes, List.length_cons, List.length_nil]
    omega

/-- Claim C9 counterexample: a well-formed 2x2 three-byte-sample image whose
total length matches `4 + width*height*bytesPerSample` exactly is
nonetheless rejected by the consumer's validation, which checks the total
length against `width*height + 4` with one byte per sample. -/
theorem serialize_reject_counterexample :
    (serializeImage 2 2 samplesW).length = 4 + 2 * 2 * 3 ∧
    headerDims (serializeImage 2 2 samplesW) = some (2, 2) ∧
    bin2pngCheck (serializeImage 2 2 samplesW) = none :=
  ⟨rfl, rfl, rfl⟩

/-- Claim C9 (amended): the serialized image is width and height as two
unsigned 16-bit fields followed by `width*height` three-byte RGB samples,
so its total length is exactly `4 + width*height*3` and the header decodes
back to the encoded dimensions; the consumer, however, validates the total
length against `width*height + 4` — one byte per sample, its grayscale
reading — accepting exactly when that one-byte formula matches and treating
any mismatch with it as a fatal input-validation error. -/
theorem serializeImage_spec (image_w image_h : ℕ) (samples : List Pixel)
    (hw : image_w < 65536) (hh : image_h < 65536)
    (hs : samples.length = image_w * image_h) :
    (serializeImage image_w image_h samples).length =
      4 + image_w * image_h * 3 ∧
    headerDims (serializeImage image_w image_h samples) =
      some (image_w, image_h) ∧
    (∀ (input : List ℕ) (w' h' : ℕ), headerDims input = some (w', h') →
      ((bin2pngCheck input = some (w', h') ↔
          input.length = 4 + w' * h' * 1) ∧
       (input.length ≠ 4 + w' * h' * 1 → bin2pngCheck input = none))) ∧
    (∀ input : List ℕ, headerDims input = none → bin2pngCheck input = none) := by
  refine ⟨?_, ?_, ?_, ?_⟩
  · simp only [serializeImage, List.length_append, pixelBytes_flatten_length,
      hs, encodeU16, List.length_cons, List.length_nil]
    ring
  · simp only [serializeImage, encodeU16, List.cons_append, List.nil_append,
      headerDims, decodeU16, Option.some.injEq, Prod.mk.injEq]
    omega
  · intro input w' h' hhd
    simp only [bin2pngCheck, hhd]
    constructor
    · split_ifs with hcond
      · exact iff_of_true rfl (by omega)
      · exact iff_of_false (by simp) (by omega)
    · intro hne
      rw [if_neg (by omega : ¬ w' * h' + 4 = input.length)]
  · intro input hnone
    simp only [bin2pngCheck, hnone]

/-- Witness for claim C9 (amended) at the concrete 2x2 image. -/
theorem serializeImage_spec_witness :
    (2 : ℕ) < 65536 ∧ (serializeImage 2 2 samplesW).length = 4 + 2 * 2 * 3 :=
  ⟨by norm_num,
   (serializeImage_spec 2 2 samplesW (by norm_num) (by norm_num) rfl).1⟩

end Raycaster
